import Mathlib

/-!
Verification development for the contract-testing library's entrypoint
invocation engine.  The data model follows
`contract-testing/src/invocation/types.rs`; the operations on it are not part
of the provided sources, so they are modelled from the specification
(`spec.md`), with the expected constants of
`contract-testing/tests/error_codes.rs` as the ground truth for the 64-bit
return-code format.  Machine integers are modelled as `Nat`/`Int`; `BTreeMap`
is modelled as an association list with in-place update.
-/

/-- Amounts are micro CCD (`u64` in the source); arithmetic that must not
underflow goes through `applyDelta`. -/
abbrev Amount := Nat

/-- Account addresses are 32-byte arrays in the source, modelled as byte
lists. -/
abbrev AccountAddress := List Nat

/-- Contract addresses are `(u64 index, u64 subindex)` pairs. -/
structure ContractAddress where
  index : Nat
  subindex : Nat
deriving DecidableEq, Repr

/-- Module references are 32-byte hashes, modelled as abstract identifiers. -/
abbrev ModuleReference := Nat

/-- The mutable contract state (a byte-keyed trie in the source) is modelled
as an opaque snapshot value; the claims treated here never inspect its
contents. -/
abbrev MutableState := List Nat

/-- Logs produced by a contract execution (`v0::Logs` in the source): a list
of byte strings. -/
abbrev Logs := List (List Nat)

/-- A positive or negative delta for an `Amount`
(`types.rs`, `AmountDelta`). -/
inductive AmountDelta where
  | Positive (a : Amount)
  | Negative (a : Amount)
deriving DecidableEq, Repr

/-- An underflow occurred (`types.rs`, `UnderflowError`). -/
inductive UnderflowError where
  | underflow
deriving DecidableEq, Repr

/-- The signed value of a delta. -/
def AmountDelta.toInt : AmountDelta → Int
  | .Positive a => (a : Int)
  | .Negative a => -(a : Int)

/-- Build a delta from a signed value. -/
def AmountDelta.ofInt (i : Int) : AmountDelta :=
  if i < 0 then .Negative i.natAbs else .Positive i.toNat

/-- Modelled from the spec: deltas compose by signed addition.  The
implementation of delta arithmetic is not under `src/`; only the type is. -/
def AmountDelta.add (d1 d2 : AmountDelta) : AmountDelta :=
  .ofInt (d1.toInt + d2.toInt)

/-- The zero delta. -/
def AmountDelta.zero : AmountDelta := .Positive 0

/-- Modelled from the spec: application of a delta to a base amount fails
with `Underflow` when the negative delta exceeds the base; otherwise it is
the unsigned sum or difference.  The implementation is not under `src/`. -/
def applyDelta (base : Amount) (d : AmountDelta) : Except UnderflowError Amount :=
  match d with
  | .Positive a => .ok (base + a)
  | .Negative a => if base < a then .error .underflow else .ok (base - a)

/-- The possible failures of a sub-call interrupt, as observed by the
calling contract (spec §4.2/§7; the concrete type lives outside `src/`). -/
inductive InvokeFailure where
  | logicError (reject_code : Int) (return_value : Bool)
  | insufficientFunds
  | missingAccount
  | missingContract
  | invalidEntrypoint
  | trap
deriving DecidableEq, Repr

/-- Two's-complement reinterpretation of an `i32` reject code as a `u32`. -/
def i32ToU32 (c : Int) : Nat := (c % (2 ^ 32)).toNat

/-- Modelled from the spec: the 64-bit return code handed to the calling
contract when a sub-call fails.  The per-case constants are exactly the
expected values asserted in `tests/error_codes.rs` (which is under `src/`):
`0x0100ffffffef` for a logic error with code `-17` and a return value,
`0x000100000000` for insufficient funds, `0x000200000000` for a missing
account, `0x000300000000` for a missing contract, `0x000400000000` for an
invalid entrypoint and `0x000600000000` for a trap. -/
def encodeInvokeFailure : InvokeFailure → Nat
  | .logicError code rv => (if rv then 0x010000000000 else 0) + i32ToU32 code
  | .insufficientFunds => 0x000100000000
  | .missingAccount => 0x000200000000
  | .missingContract => 0x000300000000
  | .invalidEntrypoint => 0x000400000000
  | .trap => 0x000600000000

/-- Whether the failed sub-call produced a return value (only a logic error
carries one). -/
def InvokeFailure.returnValueBit : InvokeFailure → Nat
  | .logicError _ rv => if rv then 1 else 0
  | _ => 0

/-- The failure category tag of spec §4.2. -/
def InvokeFailure.categoryTag : InvokeFailure → Nat
  | .logicError _ _ => 0x00
  | .insufficientFunds => 0x01
  | .missingAccount => 0x02
  | .missingContract => 0x03
  | .invalidEntrypoint => 0x04
  | .trap => 0x06

/-- The low 32 bits: the two's-complement reject code for a logic error,
zero otherwise. -/
def InvokeFailure.rejectBits : InvokeFailure → Nat
  | .logicError code _ => i32ToU32 code
  | _ => 0

/-- The formula the specification claims for the return code: return-value
presence at bits 56..48 and failure category at bits 48..40. -/
def claimedEncodeInvokeFailure (f : InvokeFailure) : Nat :=
  (f.returnValueBit <<< 48) ||| (f.categoryTag <<< 40) ||| f.rejectBits

/-- First-match lookup in an association list (the model of `BTreeMap`
lookup). -/
def alistLookup {κ ν : Type} [DecidableEq κ] : List (κ × ν) → κ → Option ν
  | [], _ => none
  | (k2, v) :: rest, k => if k2 = k then some v else alistLookup rest k

/-- Keyed update in an association list: replaces the binding in place, or
appends a new binding built from `f none` (the model of `BTreeMap` insert /
entry update). -/
def alistUpdate {κ ν : Type} [DecidableEq κ] : List (κ × ν) → κ → (Option ν → ν) → List (κ × ν)
  | [], k, f => [(k, f none)]
  | (k2, v) :: rest, k, f =>
    if k2 = k then (k2, f (some v)) :: rest else (k2, v) :: alistUpdate rest k f

/-- An account of the chain state store: holds a current balance. -/
structure Account where
  balance : Amount
deriving DecidableEq, Repr

/-- A contract instance of the chain state store. -/
structure Contract where
  owner : AccountAddress
  self_balance : Amount
  module_reference : ModuleReference
  contract_name : String
deriving DecidableEq, Repr

/-- The chain state store: the authoritative account and contract maps
(modules are not needed by the claims treated here). -/
structure Chain where
  accounts : List (AccountAddress × Account)
  contracts : List (ContractAddress × Contract)
deriving DecidableEq, Repr

/-- The store balance of an account (zero for an absent address; entries are
only ever created for addresses the execution has resolved). -/
def storeAccountBalance (ch : Chain) (a : AccountAddress) : Amount :=
  match alistLookup ch.accounts a with
  | some acc => acc.balance
  | none => 0

/-- The store self-balance of a contract. -/
def storeContractBalance (ch : Chain) (c : ContractAddress) : Amount :=
  match alistLookup ch.contracts c with
  | some con => con.self_balance
  | none => 0

/-- How an interpreter run of one entrypoint ends: success with an optional
return value, a reject with a signed 32-bit code (and whether a return value
was produced), or a trap. -/
inductive EntrypointOutcome where
  | success (return_value : Option (List Nat))
  | reject (code : Int) (return_value : Bool)
  | trapped
deriving DecidableEq, Repr

/-- Modelled from the spec: the entrypoints exposed by the `caller` test
contract (`caller.wasm` is external test data, not under `src/`).  Per the
test, it exposes `call`, `fail` and `trap`. -/
def callerEntrypoints : List String := ["call", "fail", "trap"]

/-- Modelled from the spec: the body of the `caller` contract's simple
entrypoints when invoked as a sub-call.  `fail` rejects with code `-17`
producing a return value; `trap` traps (per the comments of
`tests/error_codes.rs`). -/
def runCallerBody (ep : String) : EntrypointOutcome :=
  if ep = "fail" then .reject (-17) true
  else if ep = "trap" then .trapped
  else .success none

/-- Modelled from the spec (§4.2 steps 1–3 and step 7): servicing a
cross-contract `Call` interrupt issued by the contract at `selfAddr`.
Resolution order: missing contract, then invalid entrypoint, then
insufficient funds of the sending contract, then the callee body runs. -/
def invokeSubCall (ch : Chain) (selfAddr target : ContractAddress)
    (ep : String) (amount : Amount) : Except InvokeFailure (Option (List Nat)) :=
  match alistLookup ch.contracts target with
  | none => .error .missingContract
  | some _ =>
    if callerEntrypoints.contains ep then
      match alistLookup ch.contracts selfAddr with
      | none => .error .trap
      | some self =>
        if self.self_balance < amount then .error .insufficientFunds
        else
          match runCallerBody ep with
          | .success rv => .ok rv
          | .reject code rvp => .error (.logicError code rvp)
          | .trapped => .error .trap
    else .error .invalidEntrypoint

/-- Modelled from the spec (§4.3): servicing a `Transfer` interrupt from the
contract at `selfAddr` to an account: missing account if the target is
absent, insufficient funds if the contract's balance is too low. -/
def resolveTransfer (ch : Chain) (selfAddr : ContractAddress)
    (toAcc : AccountAddress) (amount : Amount) : Except InvokeFailure Unit :=
  match alistLookup ch.accounts toAcc with
  | none => .error .missingAccount
  | some _ =>
    match alistLookup ch.contracts selfAddr with
    | none => .error .trap
    | some self =>
      if self.self_balance < amount then .error .insufficientFunds else .ok ()

/-- Little-endian 8-byte encoding of a 64-bit value. -/
def u64ToLeBytes (n : Nat) : List Nat :=
  (List.range 8).map (fun i => (n >>> (8 * i)) % 256)

/-- The instruction the `caller` contract's `call` entrypoint decodes from
its parameter: tag `0` is a transfer to an account, tag `1` invokes a
contract entrypoint (per `tests/error_codes.rs`). -/
inductive Instruction where
  | transfer (toAcc : AccountAddress) (amount : Amount)
  | invoke (target : ContractAddress) (entrypoint : String) (amount : Amount)
deriving DecidableEq, Repr

/-- Modelled from the spec: the 64-bit code the `call` entrypoint observes
for its instruction's sub-operation.  A successful sub-operation yields the
return-value-presence bit only; a failed one yields the encoded failure. -/
def interruptCode (ch : Chain) (selfAddr : ContractAddress) : Instruction → Nat
  | .transfer toAcc amount =>
    match resolveTransfer ch selfAddr toAcc amount with
    | .ok _ => 0
    | .error e => encodeInvokeFailure e
  | .invoke target ep amount =>
    match invokeSubCall ch selfAddr target ep amount with
    | .ok rv => if rv.isSome then 0x010000000000 else 0
    | .error e => encodeInvokeFailure e

/-- The observable result of a successful top-level `contract_update`. -/
structure UpdateResult where
  return_value : List Nat
deriving DecidableEq, Repr

/-- Modelled from the spec: `contract_update` on the `caller` contract's
`call` entrypoint.  The contract performs its instruction's sub-operation,
receives the 64-bit code, echoes its little-endian bytes as its return value
and succeeds.  Per-step energy charges are not given by the spec; the run is
modelled as requiring a nonzero energy budget. -/
def contractUpdateCall (ch : Chain) (callerAddr : ContractAddress)
    (instr : Instruction) (energy : Nat) : Except InvokeFailure UpdateResult :=
  match alistLookup ch.contracts callerAddr with
  | none => .error .missingContract
  | some _ =>
    if energy = 0 then .error .trap
    else .ok ⟨u64ToLeBytes (interruptCode ch callerAddr instr)⟩

/-- The account `[0; 32]` of the test. -/
def acc0 : AccountAddress := List.replicate 32 0

/-- The absent account `[9; 32]` of the test. -/
def acc9 : AccountAddress := List.replicate 32 9

/-- The address at which the `caller` contract is instantiated. -/
def callerAddress : ContractAddress := ⟨0, 0⟩

/-- Modelled from the spec: the chain after the test setup — account
`[0; 32]` with 1,000,000 CCD (10^12 micro CCD) and the `caller` contract
instantiated with amount zero. -/
def initialChain : Chain :=
  { accounts := [(acc0, ⟨1000000 * 1000000⟩)],
    contracts := [(callerAddress, ⟨acc0, 0, 0, "init_caller"⟩)] }

/-- Data held for an account during execution
(`types.rs`, `AccountChanges`). -/
structure AccountChanges where
  original_balance : Amount
  balance_delta : AmountDelta
deriving DecidableEq, Repr

/-- Data held for a contract during execution
(`types.rs`, `ContractChanges`).  The `u32` modification index is modelled as
`Nat`: the spec treats it as an abstract monotone counter and the energy
bound keeps it far below `2^32` in any run. -/
structure ContractChanges where
  modification_index : Nat
  self_balance_delta : AmountDelta
  self_balance_original : Amount
  state : Option MutableState
  module : Option ModuleReference
deriving DecidableEq, Repr

/-- One change frame (`types.rs`, `Changes`): the contract and account diffs
recorded relative to the store. -/
structure Changes where
  contracts : List (ContractAddress × ContractChanges)
  accounts : List (AccountAddress × AccountChanges)
deriving DecidableEq, Repr

/-- The set of changes represented as a stack (`types.rs`, `ChangeSet`). -/
structure ChangeSet where
  stack : List Changes
deriving DecidableEq, Repr

/-- The empty frame. -/
def Changes.empty : Changes := ⟨[], []⟩

/-- A change set with a single empty frame, as created at the start of a
top-level invocation. -/
def ChangeSet.new : ChangeSet := ⟨[Changes.empty]⟩

/-- Modelled from the spec (§4.1): `save()` pushes a clone of the current
top frame, preserving all diffs.  The implementation is not under `src/`.
On the unreachable empty stack the operation is the identity. -/
def ChangeSet.save (cs : ChangeSet) : ChangeSet :=
  match cs.stack with
  | [] => ⟨[]⟩
  | top :: rest => ⟨top :: top :: rest⟩

/-- Modelled from the spec (§4.1): `discard()` drops the top frame; the
prior state becomes active. -/
def ChangeSet.discard (cs : ChangeSet) : ChangeSet := ⟨cs.stack.tail⟩

/-- Apply a function to the top frame only (writes mutate the top frame
only, per the spec's data model). -/
def ChangeSet.mutateTop (f : Changes → Changes) (cs : ChangeSet) : ChangeSet :=
  match cs.stack with
  | [] => ⟨[]⟩
  | top :: rest => ⟨f top :: rest⟩

/-- Modelled from the spec: merging an upper account entry into a lower one
with deltas composing by signed addition. -/
def AccountChanges.mergeAdd (lower upper : AccountChanges) : AccountChanges :=
  ⟨lower.original_balance, lower.balance_delta.add upper.balance_delta⟩

/-- Modelled from the spec: merging an upper contract entry into a lower
one — deltas add, tentative state/module present in the upper entry replace
the lower ones, modification indices take the maximum. -/
def ContractChanges.mergeAdd (lower upper : ContractChanges) : ContractChanges :=
  { modification_index := max lower.modification_index upper.modification_index,
    self_balance_delta := lower.self_balance_delta.add upper.self_balance_delta,
    self_balance_original := lower.self_balance_original,
    state := match upper.state with | some s => some s | none => lower.state,
    module := match upper.module with | some m => some m | none => lower.module }

/-- Fold an upper frame into a lower one entry by entry, using the additive
merge the specification describes for `commit()`. -/
def Changes.mergeAddInto (lower upper : Changes) : Changes :=
  { contracts := upper.contracts.foldl
      (fun acc kv => alistUpdate acc kv.1 (fun old =>
        match old with
        | some l => l.mergeAdd kv.2
        | none => kv.2)) lower.contracts,
    accounts := upper.accounts.foldl
      (fun acc kv => alistUpdate acc kv.1 (fun old =>
        match old with
        | some l => l.mergeAdd kv.2
        | none => kv.2)) lower.accounts }

/-- The specification's description of `commit()`: fold the top frame into
the frame below it with deltas adding, tentative overrides replacing and
modification indices taking the maximum. -/
def ChangeSet.commitSpec (cs : ChangeSet) : ChangeSet :=
  match cs.stack with
  | upper :: lower :: rest => ⟨lower.mergeAddInto upper :: rest⟩
  | _ => cs

/-- Commit where the top frame's contents replace the frame below it.
Because `save()` pushes a clone that preserves all diffs, the top frame
already carries every lower diff, so a commit keeps the top frame and drops
the checkpoint under it. -/
def ChangeSet.commitKeep (cs : ChangeSet) : ChangeSet :=
  match cs.stack with
  | upper :: _ :: rest => ⟨upper :: rest⟩
  | _ => cs

/-- Look up the account entry of a frame. -/
def Changes.lookupAccount (c : Changes) (a : AccountAddress) : Option AccountChanges :=
  alistLookup c.accounts a

/-- Look up the contract entry of a frame. -/
def Changes.lookupContract (c : Changes) (ca : ContractAddress) : Option ContractChanges :=
  alistLookup c.contracts ca

/-- The account entry of a frame, created at first touch with the store
balance as the immutable original and a zero delta. -/
def Changes.accountEntry (ch : Chain) (c : Changes) (a : AccountAddress) : AccountChanges :=
  match c.lookupAccount a with
  | some e => e
  | none => ⟨storeAccountBalance ch a, AmountDelta.zero⟩

/-- The contract entry of a frame, created at first touch with the store
self-balance as the immutable original, a zero delta, index zero and no
tentative state or module. -/
def Changes.contractEntry (ch : Chain) (c : Changes) (ca : ContractAddress) : ContractChanges :=
  match c.lookupContract ca with
  | some e => e
  | none => ⟨0, AmountDelta.zero, storeContractBalance ch ca, none, none⟩

/-- The write operations a frame supports (spec §4.1): balance deltas,
tentative state and module writes, and the index bump of a successful
update. -/
inductive WriteOp where
  | accountDelta (a : AccountAddress) (d : AmountDelta)
  | contractDelta (ca : ContractAddress) (d : AmountDelta)
  | setState (ca : ContractAddress) (st : MutableState)
  | setModule (ca : ContractAddress) (m : ModuleReference)
  | updateBump (ca : ContractAddress)
deriving DecidableEq, Repr

/-- Modelled from the spec: the effect of one write operation on the top
frame.  `apply_account_delta` / `apply_contract_delta` add to the recorded
delta and catch underflow before committing — an underflowing write is
rejected and leaves the frame unchanged.  `set_state` and `set_module`
overwrite the tentative field and bump the modification index; a successful
update bumps the index. -/
def writeOpTop (ch : Chain) : WriteOp → Changes → Changes
  | .accountDelta a d, top =>
    let e := top.accountEntry ch a
    let nd := e.balance_delta.add d
    match applyDelta e.original_balance nd with
    | .ok _ => { top with accounts := alistUpdate top.accounts a (fun _ => ⟨e.original_balance, nd⟩) }
    | .error _ => top
  | .contractDelta ca d, top =>
    let e := top.contractEntry ch ca
    let nd := e.self_balance_delta.add d
    match applyDelta e.self_balance_original nd with
    | .ok _ => { top with contracts := alistUpdate top.contracts ca (fun _ => { e with self_balance_delta := nd }) }
    | .error _ => top
  | .setState ca st, top =>
    let e := top.contractEntry ch ca
    { top with contracts := alistUpdate top.contracts ca (fun _ =>
        { e with state := some st, modification_index := e.modification_index + 1 }) }
  | .setModule ca m, top =>
    let e := top.contractEntry ch ca
    { top with contracts := alistUpdate top.contracts ca (fun _ =>
        { e with module := some m, modification_index := e.modification_index + 1 }) }
  | .updateBump ca, top =>
    let e := top.contractEntry ch ca
    { top with contracts := alistUpdate top.contracts ca (fun _ =>
        { e with modification_index := e.modification_index + 1 }) }

/-- Apply one write operation to a change set (top frame only). -/
def applyWriteOp (ch : Chain) (w : WriteOp) (cs : ChangeSet) : ChangeSet :=
  cs.mutateTop (writeOpTop ch w)

/-- Apply a sequence of write operations. -/
def applyWriteOps (ch : Chain) (ws : List WriteOp) (cs : ChangeSet) : ChangeSet :=
  ws.foldl (fun cs w => applyWriteOp ch w cs) cs

/-- The operations of the change-set lifecycle. -/
inductive ChangeSetOp where
  | save
  | discard
  | commit
  | write (w : WriteOp)
deriving DecidableEq, Repr

/-- The state the invocation engine threads: the read-only chain state store
and the change set.  The store is mutated only when a successful top-level
invocation is persisted, which is outside the lifecycle modelled here. -/
structure ExecState where
  store : Chain
  changeset : ChangeSet
deriving DecidableEq, Repr

/-- One lifecycle step.  `commit` keeps the top frame (see
`ChangeSet.commitKeep`). -/
def ExecState.step (s : ExecState) : ChangeSetOp → ExecState
  | .save => ⟨s.store, s.changeset.save⟩
  | .discard => ⟨s.store, s.changeset.discard⟩
  | .commit => ⟨s.store, s.changeset.commitKeep⟩
  | .write w => ⟨s.store, applyWriteOp s.store w s.changeset⟩

/-- Run a sequence of lifecycle steps. -/
def ExecState.run (s : ExecState) (ops : List ChangeSetOp) : ExecState :=
  ops.foldl ExecState.step s

/-- Modelled from the spec (§4.1): `current_mod_index` reads the contract's
recorded modification index from the active (top) frame, zero if unseen. -/
def ChangeSet.currentModIndex (cs : ChangeSet) (ca : ContractAddress) : Nat :=
  match cs.stack with
  | [] => 0
  | top :: _ =>
    match top.lookupContract ca with
    | some e => e.modification_index
    | none => 0

/-- Modelled from the spec (§4.1): `effective_balance(account)` is the
original plus the recorded signed delta (error on underflow), falling
through to the store when the active frame has no entry. -/
def ChangeSet.effectiveAccountBalance (cs : ChangeSet) (ch : Chain) (a : AccountAddress) :
    Except UnderflowError Amount :=
  match cs.stack with
  | [] => .ok (storeAccountBalance ch a)
  | top :: _ =>
    match top.lookupAccount a with
    | some e => applyDelta e.original_balance e.balance_delta
    | none => .ok (storeAccountBalance ch a)

/-- Modelled from the spec (§4.1): the effective self-balance of a
contract — the original plus the recorded signed delta (error on
underflow), falling through to the store when the active frame has no
entry. -/
def ChangeSet.effectiveContractBalance (cs : ChangeSet) (ch : Chain) (ca : ContractAddress) :
    Except UnderflowError Amount :=
  match cs.stack with
  | [] => .ok (storeContractBalance ch ca)
  | top :: _ =>
    match top.lookupContract ca with
    | some e => applyDelta e.self_balance_original e.self_balance_delta
    | none => .ok (storeContractBalance ch ca)

/-- The signed sum of the deltas recorded for an account across all frames
of the stack — the quantity the specification's invariant refers to. -/
def ChangeSet.accountDeltaSumAcrossFrames (cs : ChangeSet) (a : AccountAddress) : Int :=
  (cs.stack.map (fun fr =>
    match fr.lookupAccount a with
    | some e => e.balance_delta.toInt
    | none => 0)).sum

/-- The response of invoking an entrypoint (spec §4.2; the engine type is
external to this repository). -/
inductive InvokeResponse where
  | success (new_balance : Amount) (new_state_changed : Bool) (return_value : Option (List Nat))
  | failure (f : InvokeFailure)
  | trapped
deriving DecidableEq, Repr

/-- Whether a response is a success. -/
def InvokeResponse.isSuccess : InvokeResponse → Bool
  | .success _ _ _ => true
  | _ => false

/-- The result of invoking an entrypoint
(`types.rs`, `InvokeEntrypointResult`). -/
structure InvokeEntrypointResult where
  invoke_response : InvokeResponse
  logs : Logs
  remaining_energy : Nat
deriving DecidableEq, Repr

/-- Modelled from the spec (§4.2 step 7 and §7): building the result of an
invocation from the interpreter's terminal outcome.  On success the frame is
committed and the produced logs are returned; on a reject or a trap the
frame is discarded and the logs accumulated under it are dropped. -/
def mkInvokeEntrypointResult (outcome : EntrypointOutcome) (producedLogs : Logs)
    (new_balance : Amount) (state_changed : Bool) (remaining : Nat) : InvokeEntrypointResult :=
  match outcome with
  | .success rv => ⟨.success new_balance state_changed rv, producedLogs, remaining⟩
  | .reject code rvp => ⟨.failure (.logicError code rvp), [], remaining⟩
  | .trapped => ⟨.trapped, [], remaining⟩

/-- The energy-bearing interpreter transitions of one invocation. -/
inductive EnergyEvent where
  | start (cost : Nat)
  | interruptService (cost : Nat)
  | resume (cost : Nat)
deriving DecidableEq, Repr

/-- The energy charged by a transition. -/
def EnergyEvent.cost : EnergyEvent → Nat
  | .start c => c
  | .interruptService c => c
  | .resume c => c

/-- Modelled from the spec (§4.4): charging energy for host work; the charge
is rejected before its effect when it exceeds the remaining energy. -/
def chargeEnergy (remaining cost : Nat) : Option Nat :=
  if remaining < cost then none else some (remaining - cost)

/-- The remaining interpreter energy after each transition; execution aborts
(out of energy, trap semantics) at the first rejected charge. -/
def energyTrace (remaining : Nat) : List EnergyEvent → List Nat
  | [] => []
  | e :: es =>
    match chargeEnergy remaining e.cost with
    | none => []
    | some r => r :: energyTrace r es

/-- A list of naturals is non-increasing from head to last. -/
def Nonincreasing : List Nat → Prop
  | [] => True
  | [_] => True
  | a :: b :: rest => b ≤ a ∧ Nonincreasing (b :: rest)

/-- Lookup after a keyed update: the updated key maps to the rebuilt value,
every other key is untouched. -/
theorem alistLookup_alistUpdate {κ ν : Type} [DecidableEq κ] (m : List (κ × ν)) (k k2 : κ)
    (f : Option ν → ν) :
    alistLookup (alistUpdate m k f) k2 =
      if k = k2 then some (f (alistLookup m k)) else alistLookup m k2 := by
  induction m with
  | nil =>
    by_cases h : k = k2 <;> simp [alistUpdate, alistLookup, h]
  | cons kv rest ih =>
    obtain ⟨k1, v⟩ := kv
    by_cases h1 : k1 = k
    · subst h1
      by_cases h2 : k1 = k2 <;> simp [alistUpdate, alistLookup, h2]
    · by_cases h2 : k1 = k2
      · subst h2
        have hk : ¬k = k1 := fun hh => h1 hh.symm
        simp [alistUpdate, alistLookup, h1, hk]
      · simp [alistUpdate, alistLookup, h1, h2, ih]

/-- C1 counterexample: at the concrete failing sub-call of the first test
scenario (logic error `-17` with a return value), the code the caller
observes is `0x0100ffffffef` — the test's expected constant — while the
claimed formula `(rvp <<< 48) ||| (C <<< 40) ||| reject` yields
`0x00010000ffffffef`. -/
theorem return_code_layout_counterexample :
    encodeInvokeFailure (.logicError (-17) true) = 0x0100ffffffef ∧
    claimedEncodeInvokeFailure (.logicError (-17) true) = 0x00010000ffffffef ∧
    claimedEncodeInvokeFailure (.logicError (-17) true) ≠
      encodeInvokeFailure (.logicError (-17) true) := by
  decide

/-- C1 (amended): for every sub-call failure the 64-bit return code equals
`rvp · 2^40 + C · 2^32 + (reject code as u32 if C = 0 else 0)` — return-value
presence occupies bits 48..40 and the failure category bits 40..32 — and the
reject bits fit in 32 bits, so the fields are disjoint and all remaining
bits are zero. -/
theorem return_code_layout (f : InvokeFailure) :
    encodeInvokeFailure f =
      f.returnValueBit * 2 ^ 40 + f.categoryTag * 2 ^ 32 + f.rejectBits ∧
    f.rejectBits < 2 ^ 32 := by
  cases f with
  | logicError code rv =>
    constructor
    · cases rv <;>
        simp [encodeInvokeFailure, InvokeFailure.returnValueBit, InvokeFailure.categoryTag,
          InvokeFailure.rejectBits]
    · show i32ToU32 code < 2 ^ 32
      unfold i32ToU32
      omega
  | insufficientFunds => exact ⟨by norm_num [encodeInvokeFailure, InvokeFailure.returnValueBit,
      InvokeFailure.categoryTag, InvokeFailure.rejectBits], by norm_num [InvokeFailure.rejectBits]⟩
  | missingAccount => exact ⟨by norm_num [encodeInvokeFailure, InvokeFailure.returnValueBit,
      InvokeFailure.categoryTag, InvokeFailure.rejectBits], by norm_num [InvokeFailure.rejectBits]⟩
  | missingContract => exact ⟨by norm_num [encodeInvokeFailure, InvokeFailure.returnValueBit,
      InvokeFailure.categoryTag, InvokeFailure.rejectBits], by norm_num [InvokeFailure.rejectBits]⟩
  | invalidEntrypoint => exact ⟨by norm_num [encodeInvokeFailure, InvokeFailure.returnValueBit,
      InvokeFailure.categoryTag, InvokeFailure.rejectBits], by norm_num [InvokeFailure.rejectBits]⟩
  | trap => exact ⟨by norm_num [encodeInvokeFailure, InvokeFailure.returnValueBit,
      InvokeFailure.categoryTag, InvokeFailure.rejectBits], by norm_num [InvokeFailure.rejectBits]⟩

/-- C2: invoking `call` with (target = self, entrypoint = `fail`, amount 0)
on the initial chain (account balance 1,000,000 CCD, energy budget 10,000)
succeeds and returns exactly the little-endian 8-byte encoding of
`0x0100ffffffef`. -/
theorem scenario_fail_logic_error_return_value :
    contractUpdateCall initialChain callerAddress
        (.invoke callerAddress "fail" 0) 10000 =
      .ok ⟨u64ToLeBytes 0x0100ffffffef⟩ ∧
    u64ToLeBytes 0x0100ffffffef = [0xef, 0xff, 0xff, 0xff, 0x00, 0x01, 0x00, 0x00] :=
  ⟨by rfl, by rfl⟩

/-- C5: a transfer interrupt to the absent account `[9; 32]` fails with
MissingAccount; the caller observes the code `0x000200000000` and the
top-level update echoes its little-endian bytes. -/
theorem scenario_transfer_missing_account :
    resolveTransfer initialChain callerAddress acc9 0 = .error .missingAccount ∧
    encodeInvokeFailure .missingAccount = 0x000200000000 ∧
    contractUpdateCall initialChain callerAddress (.transfer acc9 0) 10000 =
      .ok ⟨u64ToLeBytes 0x000200000000⟩ ∧
    u64ToLeBytes 0x000200000000 = [0x00, 0x00, 0x00, 0x00, 0x02, 0x00, 0x00, 0x00] :=
  ⟨by rfl, by rfl, by rfl, by rfl⟩

/-- C6: applying a delta to a base amount fails with Underflow exactly when
the delta is `Negative u` with `u` exceeding the base; a positive delta
yields the unsigned sum and a covered negative delta the unsigned
difference. -/
theorem applyDelta_underflow_iff (b : Amount) (d : AmountDelta) :
    (applyDelta b d = .error .underflow ↔ ∃ u, d = .Negative u ∧ b < u) ∧
    (∀ u, d = .Positive u → applyDelta b d = .ok (b + u)) ∧
    (∀ u, d = .Negative u → u ≤ b → applyDelta b d = .ok (b - u)) := by
  refine ⟨?_, ?_, ?_⟩
  · cases d with
    | Positive a => simp [applyDelta]
    | Negative a =>
      by_cases h : b < a <;> simp [applyDelta, h]
  · intro u hu
    subst hu
    rfl
  · intro u hu hle
    subst hu
    simp [applyDelta, Nat.not_lt.mpr hle]

/-- C6 witness: the theorem applied at base 5 with delta `Positive 3`. -/
theorem applyDelta_underflow_iff_witness : applyDelta 5 (.Positive 3) = .ok 8 :=
  (applyDelta_underflow_iff 5 (.Positive 3)).2.1 3 rfl

/-- C8: along every sequence of interpreter starts, interrupt services and
resumes, the remaining interpreter energy is non-increasing, and any charge
that completes leaves at most the energy it started from (never a negative
remainder — the model is over `Nat` and the charge is rejected before the
effect when it exceeds the remainder). -/
theorem energy_nonincreasing (budget : Nat) (events : List EnergyEvent) :
    Nonincreasing (budget :: energyTrace budget events) ∧
    (∀ remaining cost r, chargeEnergy remaining cost = some r → r ≤ remaining) := by
  constructor
  · induction events generalizing budget with
    | nil => trivial
    | cons e es ih =>
      cases hc : chargeEnergy budget e.cost with
      | none => simp [energyTrace, hc, Nonincreasing]
      | some r =>
        have hr : r ≤ budget := by
          by_cases hlt : budget < e.cost
          · simp [chargeEnergy, hlt] at hc
          · simp [chargeEnergy, hlt] at hc
            omega
        simp only [energyTrace, hc]
        exact ⟨hr, ih r⟩
  · intro remaining cost r h
    by_cases hlt : remaining < cost
    · simp [chargeEnergy, hlt] at h
    · simp [chargeEnergy, hlt] at h
      omega

/-- C8 witness: a charge of 3 from 10 completes with remainder 7 ≤ 10, and
the trace of a concrete event list is non-increasing. -/
theorem energy_nonincreasing_witness :
    chargeEnergy 10 3 = some 7 ∧ (7 : Nat) ≤ 10 :=
  ⟨rfl, (energy_nonincreasing 10 [.start 3]).2 10 3 7 rfl⟩

/-- C10 counterexample: a successful invocation that produced no log entries
(the `caller` contract of the test logs nothing) has a `Success` response
with empty logs, refuting "logs have entries if and only if the response is
`Success`". -/
theorem logs_iff_success_counterexample :
    (mkInvokeEntrypointResult (.success none) [] 0 false 100).invoke_response.isSuccess = true ∧
    (mkInvokeEntrypointResult (.success none) [] 0 false 100).logs = [] ∧
    ¬((mkInvokeEntrypointResult (.success none) [] 0 false 100).logs ≠ [] ↔
        (mkInvokeEntrypointResult (.success none) [] 0 false 100).invoke_response.isSuccess = true) := by
  refine ⟨rfl, rfl, fun h => ?_⟩
  exact absurd rfl (h.mpr rfl)

/-- C10 (amended): whenever the response is a failure or a trap, the logs of
the invocation result are empty; entries are only possible on success. -/
theorem logs_empty_on_failure (outcome : EntrypointOutcome) (lg : Logs) (b : Amount)
    (sc : Bool) (r : Nat)
    (h : (mkInvokeEntrypointResult outcome lg b sc r).invoke_response.isSuccess = false) :
    (mkInvokeEntrypointResult outcome lg b sc r).logs = [] := by
  cases outcome <;> simp [mkInvokeEntrypointResult, InvokeResponse.isSuccess] at h ⊢

/-- C10 witness: the amended theorem applied to a reject result carrying a
candidate log list. -/
theorem logs_empty_on_failure_witness :
    (mkInvokeEntrypointResult (.reject (-17) true) [[1, 2]] 0 false 5).logs = [] :=
  logs_empty_on_failure (.reject (-17) true) [[1, 2]] 0 false 5 rfl

/-- The combined effect of a write sequence on a single frame. -/
def writeOpsTop (ch : Chain) (ws : List WriteOp) (t : Changes) : Changes :=
  ws.foldl (fun t w => writeOpTop ch w t) t

/-- A write sequence only rewrites the top frame; the frames below it are
untouched. -/
theorem applyWriteOps_cons (ch : Chain) (ws : List WriteOp) (t : Changes) (rest : List Changes) :
    applyWriteOps ch ws ⟨t :: rest⟩ = ⟨writeOpsTop ch ws t :: rest⟩ := by
  induction ws generalizing t with
  | nil => rfl
  | cons w ws ih =>
    show applyWriteOps ch ws (applyWriteOp ch w ⟨t :: rest⟩) = _
    have h1 : applyWriteOp ch w ⟨t :: rest⟩ = ⟨writeOpTop ch w t :: rest⟩ := rfl
    rw [h1, ih]
    rfl

/-- No lifecycle step mutates the chain state store. -/
theorem run_store (s : ExecState) (ops : List ChangeSetOp) : (s.run ops).store = s.store := by
  induction ops generalizing s with
  | nil => rfl
  | cons op ops ih =>
    show (ExecState.run (s.step op) ops).store = s.store
    rw [ih]
    cases op <;> rfl

/-- Running a mapped write sequence is applying it to the change set. -/
theorem run_writes (s : ExecState) (ws : List WriteOp) :
    s.run (ws.map ChangeSetOp.write) = ⟨s.store, applyWriteOps s.store ws s.changeset⟩ := by
  induction ws generalizing s with
  | nil => rfl
  | cons w ws ih =>
    show ExecState.run (s.step (.write w)) (ws.map ChangeSetOp.write) = _
    rw [ih]
    rfl

/-- C3: for every execution state and every write sequence, a `save`,
arbitrary mutations of the (new) top frame, and a `discard` leave the
chain state store and the whole frame stack exactly as they were before the
`save`. -/
theorem save_mutate_discard_identity (s : ExecState) (ws : List WriteOp)
    (h : s.changeset.stack ≠ []) :
    s.run (ChangeSetOp.save :: (ws.map ChangeSetOp.write ++ [ChangeSetOp.discard])) = s := by
  obtain ⟨store, ⟨stack⟩⟩ := s
  cases stack with
  | nil => exact absurd rfl h
  | cons t rest =>
    have h1 : ExecState.run ⟨store, ⟨t :: rest⟩⟩
          (ChangeSetOp.save :: (ws.map ChangeSetOp.write ++ [ChangeSetOp.discard]))
        = ExecState.run ⟨store, ⟨t :: t :: rest⟩⟩
            (ws.map ChangeSetOp.write ++ [ChangeSetOp.discard]) := rfl
    have h2 : ExecState.run ⟨store, ⟨t :: t :: rest⟩⟩
          (ws.map ChangeSetOp.write ++ [ChangeSetOp.discard])
        = ExecState.run
            (ExecState.run ⟨store, ⟨t :: t :: rest⟩⟩ (ws.map ChangeSetOp.write))
            [ChangeSetOp.discard] := by
      unfold ExecState.run
      exact List.foldl_append _ _ _ _
    rw [h1, h2, run_writes]
    show ExecState.run ⟨store, applyWriteOps store ws ⟨t :: t :: rest⟩⟩ [ChangeSetOp.discard] = _
    rw [applyWriteOps_cons]
    rfl

/-- C3 witness: the theorem applied to the initial state with one concrete
balance write. -/
theorem save_mutate_discard_identity_witness :
    ExecState.run ⟨initialChain, ChangeSet.new⟩
        (ChangeSetOp.save ::
          ([WriteOp.accountDelta acc0 (.Positive 1)].map ChangeSetOp.write ++
            [ChangeSetOp.discard])) =
      ⟨initialChain, ChangeSet.new⟩ :=
  save_mutate_discard_identity ⟨initialChain, ChangeSet.new⟩
    [WriteOp.accountDelta acc0 (.Positive 1)] (by decide)

/-- A single-frame change set with a recorded account diff, used to exhibit
the double counting of the additive commit. -/
def csC4 : ChangeSet := ⟨[⟨[], [(acc0, ⟨100, .Positive 5⟩)]⟩]⟩

/-- C4 counterexample: starting from a frame with delta +5, applying +3
after a `save` and committing with the claimed additive merge yields delta
+13, while the direct mutation yields +8 — the clone pushed by `save`
already carries the lower frame's delta, so the additive merge double
counts it. -/
theorem save_mutate_commit_additive_counterexample :
    (applyWriteOps initialChain [.accountDelta acc0 (.Positive 3)] csC4.save).commitSpec ≠
      applyWriteOps initialChain [.accountDelta acc0 (.Positive 3)] csC4 ∧
    (applyWriteOps initialChain [.accountDelta acc0 (.Positive 3)] csC4.save).commitSpec =
      ⟨[⟨[], [(acc0, ⟨100, .Positive 13⟩)]⟩]⟩ ∧
    applyWriteOps initialChain [.accountDelta acc0 (.Positive 3)] csC4 =
      ⟨[⟨[], [(acc0, ⟨100, .Positive 8⟩)]⟩]⟩ := by
  exact ⟨by decide, by decide, by decide⟩

/-- C4 (amended): `save`, then arbitrary mutations of the top frame, then a
commit that keeps the top frame's contents (replacing the checkpoint below
it) equals the direct mutation without the save/commit pair.  Since `save`
pushes a clone preserving all diffs, the upper frame already contains the
lower frame's deltas, tentative state/module and modification index, so
replacement — not signed addition of deltas — is the merge that makes the
round trip the identity. -/
theorem save_mutate_commit_equiv (ch : Chain) (cs : ChangeSet) (ws : List WriteOp)
    (h : cs.stack ≠ []) :
    (applyWriteOps ch ws cs.save).commitKeep = applyWriteOps ch ws cs := by
  obtain ⟨stack⟩ := cs
  cases stack with
  | nil => exact absurd rfl h
  | cons t rest =>
    have h1 : ChangeSet.save ⟨t :: rest⟩ = ⟨t :: t :: rest⟩ := rfl
    rw [h1, applyWriteOps_cons, applyWriteOps_cons]
    rfl

/-- C4 witness: the amended theorem applied to the initial change set with
one concrete balance write. -/
theorem save_mutate_commit_equiv_witness :
    (applyWriteOps initialChain [WriteOp.accountDelta acc0 (.Positive 3)]
        ChangeSet.new.save).commitKeep =
      applyWriteOps initialChain [WriteOp.accountDelta acc0 (.Positive 3)] ChangeSet.new :=
  save_mutate_commit_equiv initialChain ChangeSet.new
    [WriteOp.accountDelta acc0 (.Positive 3)] (by decide)

/-- C7: every observable write — `set_state`, `set_module`, or the bump of a
successful update — strictly increases the contract's modification index,
and `current_mod_index` is zero for a contract with no recorded entry. -/
theorem modification_index_strict_increase (ch : Chain) (cs : ChangeSet)
    (ca : ContractAddress) (st : MutableState) (m : ModuleReference)
    (h : cs.stack ≠ []) :
    cs.currentModIndex ca < (applyWriteOp ch (.setState ca st) cs).currentModIndex ca ∧
    cs.currentModIndex ca < (applyWriteOp ch (.setModule ca m) cs).currentModIndex ca ∧
    cs.currentModIndex ca < (applyWriteOp ch (.updateBump ca) cs).currentModIndex ca ∧
    (∀ top rest, cs.stack = top :: rest → top.lookupContract ca = none →
      cs.currentModIndex ca = 0) := by
  obtain ⟨stack⟩ := cs
  cases stack with
  | nil => exact absurd rfl h
  | cons t rest =>
    refine ⟨?_, ?_, ?_, ?_⟩
    · cases hl : alistLookup t.contracts ca <;>
        simp [applyWriteOp, ChangeSet.mutateTop, ChangeSet.currentModIndex, writeOpTop,
          Changes.contractEntry, Changes.lookupContract, alistLookup_alistUpdate, hl]
    · cases hl : alistLookup t.contracts ca <;>
        simp [applyWriteOp, ChangeSet.mutateTop, ChangeSet.currentModIndex, writeOpTop,
          Changes.contractEntry, Changes.lookupContract, alistLookup_alistUpdate, hl]
    · cases hl : alistLookup t.contracts ca <;>
        simp [applyWriteOp, ChangeSet.mutateTop, ChangeSet.currentModIndex, writeOpTop,
          Changes.contractEntry, Changes.lookupContract, alistLookup_alistUpdate, hl]
    · intro top2 rest2 heq hnone
      have heq2 : t :: rest = top2 :: rest2 := heq
      injection heq2 with h1 h2
      subst h1
      simp [ChangeSet.currentModIndex, hnone]

/-- C7 witness: a `set_state` on the fresh change set takes the index of the
caller contract from 0 to 1. -/
theorem modification_index_strict_increase_witness :
    ChangeSet.new.currentModIndex callerAddress <
      (applyWriteOp initialChain (.setState callerAddress []) ChangeSet.new).currentModIndex
        callerAddress :=
  (modification_index_strict_increase initialChain ChangeSet.new callerAddress [] 0
    (by decide)).1

/-- A frame whose recorded originals all equal the store balance of their
address. -/
def Changes.originalsMatch (ch : Chain) (fr : Changes) : Prop :=
  (∀ a e, fr.lookupAccount a = some e → e.original_balance = storeAccountBalance ch a) ∧
  (∀ ca e, fr.lookupContract ca = some e → e.self_balance_original = storeContractBalance ch ca)

/-- A change set all of whose frames have store-matching originals. -/
def ChangeSet.originalsMatch (ch : Chain) (cs : ChangeSet) : Prop :=
  ∀ fr ∈ cs.stack, fr.originalsMatch ch

/-- The original balance of an account entry (present or freshly created) is
the store balance, given store-matching originals. -/
theorem accountEntry_original (ch : Chain) (t : Changes) (a : AccountAddress)
    (h : t.originalsMatch ch) :
    (t.accountEntry ch a).original_balance = storeAccountBalance ch a := by
  unfold Changes.accountEntry
  cases hl : t.lookupAccount a with
  | some e =>
    simp only [hl]
    exact h.1 a e hl
  | none => simp only [hl]

/-- The original self-balance of a contract entry (present or freshly
created) is the store balance, given store-matching originals. -/
theorem contractEntry_original (ch : Chain) (t : Changes) (ca : ContractAddress)
    (h : t.originalsMatch ch) :
    (t.contractEntry ch ca).self_balance_original = storeContractBalance ch ca := by
  unfold Changes.contractEntry
  cases hl : t.lookupContract ca with
  | some e =>
    simp only [hl]
    exact h.2 ca e hl
  | none => simp only [hl]

/-- Rewriting one account binding with a store-matching original preserves
the frame invariant. -/
theorem originalsMatch_updateAccounts (ch : Chain) (t : Changes) (a : AccountAddress)
    (v : AccountChanges) (h : t.originalsMatch ch)
    (hv : v.original_balance = storeAccountBalance ch a) :
    Changes.originalsMatch ch { t with accounts := alistUpdate t.accounts a (fun _ => v) } := by
  constructor
  · intro a2 e he
    have he2 : alistLookup (alistUpdate t.accounts a (fun _ => v)) a2 = some e := he
    rw [alistLookup_alistUpdate] at he2
    by_cases hh : a = a2
    · rw [if_pos hh] at he2
      injection he2 with he3
      rw [← he3, ← hh]
      exact hv
    · rw [if_neg hh] at he2
      exact h.1 a2 e he2
  · intro ca e he
    exact h.2 ca e he

/-- Rewriting one contract binding with a store-matching original preserves
the frame invariant. -/
theorem originalsMatch_updateContracts (ch : Chain) (t : Changes) (ca : ContractAddress)
    (v : ContractChanges) (h : t.originalsMatch ch)
    (hv : v.self_balance_original = storeContractBalance ch ca) :
    Changes.originalsMatch ch { t with contracts := alistUpdate t.contracts ca (fun _ => v) } := by
  constructor
  · intro a e he
    exact h.1 a e he
  · intro ca2 e he
    have he2 : alistLookup (alistUpdate t.contracts ca (fun _ => v)) ca2 = some e := he
    rw [alistLookup_alistUpdate] at he2
    by_cases hh : ca = ca2
    · rw [if_pos hh] at he2
      injection he2 with he3
      rw [← he3, ← hh]
      exact hv
    · rw [if_neg hh] at he2
      exact h.2 ca2 e he2

/-- Every write keeps the originals of the written frame matching the
store: existing entries keep their original, fresh entries record the store
balance. -/
theorem originalsMatch_writeOpTop (ch : Chain) (w : WriteOp) (t : Changes)
    (h : t.originalsMatch ch) : (writeOpTop ch w t).originalsMatch ch := by
  cases w with
  | accountDelta a d =>
    simp only [writeOpTop]
    split
    · exact originalsMatch_updateAccounts ch t a _ h (accountEntry_original ch t a h)
    · exact h
  | contractDelta ca d =>
    simp only [writeOpTop]
    split
    · exact originalsMatch_updateContracts ch t ca _ h (contractEntry_original ch t ca h)
    · exact h
  | setState ca st =>
    exact originalsMatch_updateContracts ch t ca _ h (contractEntry_original ch t ca h)
  | setModule ca m =>
    exact originalsMatch_updateContracts ch t ca _ h (contractEntry_original ch t ca h)
  | updateBump ca =>
    exact originalsMatch_updateContracts ch t ca _ h (contractEntry_original ch t ca h)

/-- Every lifecycle step preserves store-matching originals in all frames. -/
theorem originalsMatch_step (s : ExecState) (op : ChangeSetOp)
    (h : s.changeset.originalsMatch s.store) :
    (s.step op).changeset.originalsMatch (s.step op).store := by
  obtain ⟨store, ⟨stack⟩⟩ := s
  cases op with
  | save =>
    cases stack with
    | nil => intro fr hfr; exact absurd hfr (List.not_mem_nil fr)
    | cons t rest =>
      intro fr hfr
      have hfr2 : fr ∈ t :: t :: rest := hfr
      rcases List.mem_cons.mp hfr2 with h1 | h2
      · exact h fr (by rw [h1]; exact List.mem_cons_self _ _)
      · exact h fr h2
  | discard =>
    cases stack with
    | nil => intro fr hfr; exact absurd hfr (List.not_mem_nil fr)
    | cons t rest =>
      intro fr hfr
      exact h fr (List.mem_cons_of_mem _ hfr)
  | commit =>
    cases stack with
    | nil => intro fr hfr; exact absurd hfr (List.not_mem_nil fr)
    | cons t rest =>
      cases rest with
      | nil => intro fr hfr; exact h fr hfr
      | cons t2 rest2 =>
        intro fr hfr
        have hfr2 : fr ∈ t :: rest2 := hfr
        rcases List.mem_cons.mp hfr2 with h1 | h2
        · exact h fr (by rw [h1]; exact List.mem_cons_self _ _)
        · exact h fr (List.mem_cons_of_mem _ (List.mem_cons_of_mem _ h2))
  | write w =>
    cases stack with
    | nil => intro fr hfr; exact absurd hfr (List.not_mem_nil fr)
    | cons t rest =>
      intro fr hfr
      have hfr2 : fr ∈ writeOpTop store w t :: rest := hfr
      rcases List.mem_cons.mp hfr2 with h1 | h2
      · rw [h1]
        exact originalsMatch_writeOpTop store w t (h t (List.mem_cons_self _ _))
      · exact h fr (List.mem_cons_of_mem _ h2)

/-- Store-matching originals are preserved along any run. -/
theorem originalsMatch_run (s : ExecState) (ops : List ChangeSetOp)
    (h : s.changeset.originalsMatch s.store) :
    (s.run ops).changeset.originalsMatch (s.run ops).store := by
  induction ops generalizing s with
  | nil => exact h
  | cons op ops ih => exact ih (s.step op) (originalsMatch_step s op h)

/-- The fresh change set has store-matching originals (its only frame is
empty). -/
theorem originalsMatch_new (ch : Chain) : ChangeSet.new.originalsMatch ch := by
  intro fr hfr
  have hfr2 : fr ∈ [Changes.empty] := hfr
  have he : fr = Changes.empty := by
    rcases List.mem_cons.mp hfr2 with h1 | h2
    · exact h1
    · exact absurd h2 (List.not_mem_nil fr)
  rw [he]
  constructor
  · intro a e hee
    simp [Changes.lookupAccount, Changes.empty, alistLookup] at hee
  · intro ca e hee
    simp [Changes.lookupContract, Changes.empty, alistLookup] at hee

/-- C9 (amended): along every run from a fresh change set, the original
balance recorded in any account or contract entry of any frame equals the
store balance of that address — it is set at frame creation and never
mutated — and the effective balance of an account, and the effective
self-balance of a contract, with an entry in the active frame is the store
balance combined with the top frame's recorded delta (not the signed sum of
deltas across all frames: `save` clones the frame, so each frame's delta
already contains the deltas below it). -/
theorem original_balance_invariant (ch : Chain) (ops : List ChangeSetOp) :
    (ExecState.run ⟨ch, ChangeSet.new⟩ ops).changeset.originalsMatch ch ∧
    (∀ top rest a e,
      (ExecState.run ⟨ch, ChangeSet.new⟩ ops).changeset.stack = top :: rest →
      top.lookupAccount a = some e →
      (ExecState.run ⟨ch, ChangeSet.new⟩ ops).changeset.effectiveAccountBalance ch a =
        applyDelta (storeAccountBalance ch a) e.balance_delta) ∧
    (∀ top rest ca e,
      (ExecState.run ⟨ch, ChangeSet.new⟩ ops).changeset.stack = top :: rest →
      top.lookupContract ca = some e →
      (ExecState.run ⟨ch, ChangeSet.new⟩ ops).changeset.effectiveContractBalance ch ca =
        applyDelta (storeContractBalance ch ca) e.self_balance_delta) := by
  have hrun := originalsMatch_run ⟨ch, ChangeSet.new⟩ ops (originalsMatch_new ch)
  have hstore : (ExecState.run ⟨ch, ChangeSet.new⟩ ops).store = ch := run_store _ _
  rw [hstore] at hrun
  refine ⟨hrun, ?_, ?_⟩
  · intro top rest a e hstk he
    have hmem : top ∈ (ExecState.run ⟨ch, ChangeSet.new⟩ ops).changeset.stack := by
      rw [hstk]
      exact List.mem_cons_self _ _
    have horig : e.original_balance = storeAccountBalance ch a := (hrun top hmem).1 a e he
    simp [ChangeSet.effectiveAccountBalance, hstk, he, horig]
  · intro top rest ca e hstk he
    have hmem : top ∈ (ExecState.run ⟨ch, ChangeSet.new⟩ ops).changeset.stack := by
      rw [hstk]
      exact List.mem_cons_self _ _
    have horig : e.self_balance_original = storeContractBalance ch ca := (hrun top hmem).2 ca e he
    simp [ChangeSet.effectiveContractBalance, hstk, he, horig]

/-- C9 witness: the amended theorem applied after one concrete +5 account
write and one +7 contract write on the initial chain, discharging the
hypotheses of both the account and the contract conjuncts. -/
theorem original_balance_invariant_witness :
    (ExecState.run ⟨initialChain, ChangeSet.new⟩
          [ChangeSetOp.write (WriteOp.accountDelta acc0 (AmountDelta.Positive 5)),
            ChangeSetOp.write (WriteOp.contractDelta callerAddress (AmountDelta.Positive 7))]).changeset.effectiveAccountBalance
        initialChain acc0 =
      applyDelta (storeAccountBalance initialChain acc0) (AmountDelta.Positive 5) ∧
    (ExecState.run ⟨initialChain, ChangeSet.new⟩
          [ChangeSetOp.write (WriteOp.accountDelta acc0 (AmountDelta.Positive 5)),
            ChangeSetOp.write (WriteOp.contractDelta callerAddress (AmountDelta.Positive 7))]).changeset.effectiveContractBalance
        initialChain callerAddress =
      applyDelta (storeContractBalance initialChain callerAddress) (AmountDelta.Positive 7) :=
  ⟨(original_balance_invariant initialChain
        [ChangeSetOp.write (WriteOp.accountDelta acc0 (AmountDelta.Positive 5)),
          ChangeSetOp.write (WriteOp.contractDelta callerAddress (AmountDelta.Positive 7))]).2.1
      ⟨[(callerAddress, ⟨0, AmountDelta.Positive 7, 0, none, none⟩)],
        [(acc0, ⟨1000000000000, AmountDelta.Positive 5⟩)]⟩ [] acc0
      ⟨1000000000000, AmountDelta.Positive 5⟩ (by rfl) (by rfl),
    (original_balance_invariant initialChain
        [ChangeSetOp.write (WriteOp.accountDelta acc0 (AmountDelta.Positive 5)),
          ChangeSetOp.write (WriteOp.contractDelta callerAddress (AmountDelta.Positive 7))]).2.2
      ⟨[(callerAddress, ⟨0, AmountDelta.Positive 7, 0, none, none⟩)],
        [(acc0, ⟨1000000000000, AmountDelta.Positive 5⟩)]⟩ [] callerAddress
      ⟨0, AmountDelta.Positive 7, 0, none, none⟩ (by rfl) (by rfl)⟩

/-- A reachable two-frame change set: one +5 write, then a `save`. -/
def cs9 : ChangeSet :=
  (ExecState.run ⟨initialChain, ChangeSet.new⟩
      [ChangeSetOp.write (WriteOp.accountDelta acc0 (AmountDelta.Positive 5)),
        ChangeSetOp.save]).changeset

/-- C9 counterexample: after a +5 write and a `save`, both frames carry the
cloned +5 delta (originals equal the store balance 10^12 as claimed), but
the effective balance is original + 5 while original + signed-sum-across-
frames is original + 10 — the claimed formula double-counts cloned
deltas. -/
theorem effective_balance_sum_counterexample :
    cs9.stack.map (fun fr => fr.lookupAccount acc0) =
      [some ⟨1000000000000, AmountDelta.Positive 5⟩,
        some ⟨1000000000000, AmountDelta.Positive 5⟩] ∧
    cs9.effectiveAccountBalance initialChain acc0 = .ok 1000000000005 ∧
    cs9.accountDeltaSumAcrossFrames acc0 = 10 ∧
    (1000000000000 + 10 : Int) ≠ ((1000000000005 : Nat) : Int) := by
  exact ⟨by rfl, by rfl, by rfl, by decide⟩
